import Mathlib

set_option maxHeartbeats 1000000

/-
Verification development for the badger_batcher library
(src/badger_batcher/core.py and src/badger_batcher/utils/iterating.py).

The Python code is shallowly embedded: iterators are represented by the list
of items they have yet to yield, `__next__` becomes an explicit step function
on an iteration-state type, and raised exceptions become explicit result
constructors.  Python truthiness of the optional integer configuration
parameters (`None` and `0` are falsy) and of the record values themselves is
modelled explicitly, because the source branches on both.
-/

namespace BadgerBatcher

/-- Python truthiness of an optional non-negative integer configuration value
(the spec restricts the configuration integers to non-negative values):
`None` and `0` are falsy, every positive integer is truthy. -/
def pyTruthyNat : Option Nat → Bool
  | none => false
  | some n => n != 0

/-- Model of `badger_batcher.utils.iterating.CacheIterator`: a wrapper around
an iterator that stores the most recently yielded item in `prev`.  The wrapped
iterable is represented by the list of its remaining items.  The Python class
keeps the iterable and the iterator obtained from it in two fields, but in the
single-consumer uses modelled here `__iter__` re-obtains the same generator,
so collapsing both fields into one remaining-items list preserves behaviour. -/
structure CacheIterator (α : Type) where
  remaining : List α
  prev : Option α
deriving DecidableEq

/-- Model of `CacheIterator.__next__`: on a non-exhausted iterator, yield the
next item and additionally store it in `prev`; on exhaustion, `StopIteration`
is modelled by `none`, and since no successor state is returned the caller
keeps the iterator unchanged (in particular `prev` keeps the last value ever
produced). -/
def CacheIterator.next {α : Type} : CacheIterator α → Option (α × CacheIterator α)
  | ⟨[], _⟩ => none
  | ⟨x :: xs, _⟩ => some (x, ⟨xs, some x⟩)

/-- Model of the fields of `badger_batcher.core.Batcher` set by `__init__`.
`records` holds the underlying record source; for a one-shot source it is the
list of items the source has yet to yield. -/
structure Batcher (α : Type) where
  records : List α
  max_batch_len : Option Nat := none
  max_record_size : Option Nat := none
  max_batch_size : Option Nat := none
  size_calc_fn : Option (α → Nat) := none
  when_record_size_exceeded : String := "raises"

/-- Model of `Batcher.__init__` (core.py lines 79-116): parameter validation
and defaulting, with `raise ValueError` modelled as `Except.error` carrying
the message.  The guards use Python truthiness, so a size limit explicitly
passed as `0` behaves exactly like `None` here, and a function argument is
always truthy (`not size_calc_fn` is true exactly when it is `None`). -/
def Batcher.init {α : Type} (records : List α)
    (max_batch_len max_record_size max_batch_size : Option Nat)
    (size_calc_fn : Option (α → Nat))
    (when_record_size_exceeded : String := "raises") : Except String (Batcher α) :=
  if (pyTruthyNat max_record_size || pyTruthyNat max_batch_size) && size_calc_fn.isNone then
    .error "max_record_size requires size_calc_fn to be specified"
  else
    let max_record_size :=
      if pyTruthyNat max_batch_size && !pyTruthyNat max_record_size then max_batch_size
      else max_record_size
    if when_record_size_exceeded != "raises" && when_record_size_exceeded != "skip" then
      .error "when_record_size_exceeded should be in: [raises, skip]"
    else
      .ok { records := records, max_batch_len := max_batch_len,
            max_record_size := max_record_size, max_batch_size := max_batch_size,
            size_calc_fn := size_calc_fn,
            when_record_size_exceeded := when_record_size_exceeded }

/-- Application of the configured `size_calc_fn`.  In the source the call
`self.size_calc_fn(record)` is only reached under a truthy size limit, and
`__init__` guarantees the function is present in that case, so the `none`
branch (which Python would turn into a `TypeError`) is unreachable for
validated configurations; it returns `0` here. -/
def Batcher.sizeApp {α : Type} (b : Batcher α) (r : α) : Nat :=
  match b.size_calc_fn with
  | some f => f r
  | none => 0

/-- Model of `Batcher._check_max_batch_len` (lines 118-130):
`len(batch) >= max_len` when `max_batch_len` is truthy, `False` otherwise. -/
def Batcher.check_max_batch_len {α : Type} (b : Batcher α) (batch : List α) : Bool :=
  if pyTruthyNat b.max_batch_len then decide (b.max_batch_len.getD 0 ≤ batch.length)
  else false

/-- Model of `Batcher._check_max_record_size` (lines 132-145):
`size_calc_fn(record) > max_size` when `max_record_size` is truthy. -/
def Batcher.check_max_record_size {α : Type} (b : Batcher α) (r : α) : Bool :=
  if pyTruthyNat b.max_record_size then decide (b.max_record_size.getD 0 < b.sizeApp r)
  else false

/-- Model of `Batcher._check_new_batch_size` (lines 147-166): returns the
split decision together with the updated `_batch_cur_size` (the Python method
mutates the field only in the non-splitting branch).  The Python local
`new_batch_size = cur + size_calc_fn(record)` is inlined. -/
def Batcher.check_new_batch_size {α : Type} (b : Batcher α) (cur : Nat) (r : α) : Bool × Nat :=
  if pyTruthyNat b.max_batch_size then
    if b.max_batch_size.getD 0 < cur + b.sizeApp r then (true, cur)
    else (false, cur + b.sizeApp r)
  else (false, cur)

/-- Iteration state of a `Batcher` between `__next__` calls: `_iter_state`
(`none` once the current pass is terminally exhausted, exactly the Python
`None`) and `_batch_cur_size`. -/
structure BState (α : Type) where
  iter_state : Option (CacheIterator α)
  batch_cur_size : Nat
deriving DecidableEq

/-- Exceptions that `Batcher.__next__` can raise besides `StopIteration`. -/
inductive BatchErr (α : Type) where
  | recordSizeExceeded : α → BatchErr α
  | notImplementedError : BatchErr α
deriving DecidableEq

/-- Result of one `Batcher.__next__` call: `StopIteration`, a batch together
with the successor iteration state, or a raised exception. -/
inductive NextRes (α : Type) where
  | stopIteration : NextRes α
  | batch : List α → BState α → NextRes α
  | error : BatchErr α → NextRes α
deriving DecidableEq

/-- Model of the `for record in self._iter_state` loop of `Batcher.__next__`
(lines 210-234).  Pulling a record moves it from `remaining` into the cache's
`prev` field, so in the two splitting branches the successor state carries
`prev = some r` for the record `r` that triggered the split.  The final
clause models lines 232-234 (`_iter_state = None`, `_batch_cur_size = 0`)
reached when the source is exhausted. -/
def Batcher.runLoop {α : Type} (b : Batcher α) : List α → List α → Nat → NextRes α
  | [], batch, _ => .batch batch ⟨none, 0⟩
  | r :: rest, batch, cur =>
    if b.check_max_record_size r then
      if b.when_record_size_exceeded = "raises" then .error (.recordSizeExceeded r)
      else if b.when_record_size_exceeded = "skip" then b.runLoop rest batch cur
      else .error .notImplementedError
    else if b.check_max_batch_len batch then
      .batch batch ⟨some ⟨rest, some r⟩, cur⟩
    else
      match b.check_new_batch_size cur r with
      | (true, cur2) => .batch batch ⟨some ⟨rest, some r⟩, cur2⟩
      | (false, cur2) => b.runLoop rest (batch ++ [r]) cur2

/-- Model of `Batcher.__next__` (lines 178-234).  `pb` is the Python
truthiness of the record type: it is used by the walrus test
`if cache := self._iter_state.prev:` (line 202) and by the conditional
expression seeding `_batch_cur_size` (line 207).  The `if self._iter_state:`
test on line 209 is always true at that point (a dataclass instance is
truthy), so the loop is entered unconditionally. -/
def Batcher.next {α : Type} (b : Batcher α) (pb : α → Bool) (s : BState α) : NextRes α :=
  match s.iter_state with
  | none => .stopIteration
  | some ci =>
    let batch : List α :=
      match ci.prev with
      | some c => if pb c then [c] else []
      | none => []
    let cur : Nat :=
      if pyTruthyNat b.max_batch_size then
        match ci.prev with
        | some c => if pb c then b.sizeApp c else 0
        | none => 0
      else s.batch_cur_size
    b.runLoop ci.remaining batch cur

/-- Model of `Batcher.__iter__` (lines 168-176) invoked while the (one-shot)
underlying record source still has `src` to yield and `_batch_cur_size`
currently holds `cur`: a fresh `CacheIterator` over a generator reading the
source, with `prev` initially `None`; the counter field is not touched. -/
def passState {α : Type} (src : List α) (cur : Nat) : BState α :=
  ⟨some ⟨src, none⟩, cur⟩

/-- Fuelled driver modelling `list(iter(batcher))`: repeatedly call
`__next__`, collecting batches until `StopIteration`; a raised exception
propagates to the caller.  `none` means the fuel ran out, which never happens
for the fuel chosen in `Batcher.batches`. -/
def Batcher.drain {α : Type} (b : Batcher α) (pb : α → Bool) :
    Nat → BState α → Option (Except (BatchErr α) (List (List α)))
  | 0, _ => none
  | fuel + 1, s =>
    match b.next pb s with
    | .stopIteration => some (.ok [])
    | .error e => some (.error e)
    | .batch bt t => (b.drain pb fuel t).map (fun res => res.map (fun bs => bt :: bs))

/-- Model of `Batcher.batches` (lines 236-245) on a freshly constructed
`Batcher` (counter `0`, source positioned at `b.records`). -/
def Batcher.batches {α : Type} (b : Batcher α) (pb : α → Bool) :
    Option (Except (BatchErr α) (List (List α))) :=
  b.drain pb (b.records.length + 2) (passState b.records 0)

/-- Termination measure for the drain driver: `0` on a terminally exhausted
state, otherwise one more than the number of unconsumed records. -/
def BState.measure {α : Type} : BState α → Nat
  | ⟨none, _⟩ => 0
  | ⟨some ci, _⟩ => ci.remaining.length + 1

/-- States of a `Batcher` reachable by starting an iteration pass (over any
position `src` of the one-shot source, with any inherited counter value) and
then taking any number of successful `__next__` steps. -/
inductive Batcher.Reachable {α : Type} (b : Batcher α) (pb : α → Bool) : BState α → Prop
  | iterStart (src : List α) (cur : Nat) : Batcher.Reachable b pb (passState src cur)
  | step {s : BState α} {bt : List α} {t : BState α} :
      Batcher.Reachable b pb s → b.next pb s = .batch bt t → Batcher.Reachable b pb t

/-- Invariant: any record cached in the lookahead `prev` slot has size at
most `M`.  It holds for every reachable state when `max_record_size = M` is
truthy, because `prev` only ever holds records that passed the record-size
check or records that will never be re-read. -/
def Batcher.PrevOk {α : Type} (b : Batcher α) (M : Nat) (s : BState α) : Prop :=
  ∀ ci : CacheIterator α, s.iter_state = some ci →
    ∀ r : α, ci.prev = some r → b.sizeApp r ≤ M

/-- Python truthiness of an `int`-valued record. -/
def natTruthy (n : Nat) : Bool := n != 0

/-- Python truthiness of a `bytes`-valued record, modelled as a list of byte
values. -/
def bytesTruthy (l : List Nat) : Bool := !l.isEmpty

/-- Predicate distinguishing successful construction from a raised
`ValueError`. -/
def exceptIsOk {ε β : Type} : Except ε β → Bool
  | .ok _ => true
  | .error _ => false

/-- Identity size function on `int` records (`size_calc_fn = lambda n: n`). -/
def natSize (n : Nat) : Nat := n

/-- Concrete instance for the carry-over loss: two `int` records, the second
falsy, `max_batch_len = 1`, default policy. -/
def c1Batcher : Batcher Nat :=
  { records := [2, 0], max_batch_len := some 1 }

/-- Concrete instance with `max_record_size` explicitly larger than
`max_batch_size`. -/
def c2Batcher : Batcher Nat :=
  { records := [7], max_record_size := some 10, max_batch_size := some 5,
    size_calc_fn := some natSize }

/-- Concrete instance for the amended cumulative-size bound. -/
def c2wBatcher : Batcher Nat :=
  { records := [3, 4], max_record_size := some 5, max_batch_size := some 5,
    size_calc_fn := some natSize }

/-- Concrete instance for the second-pass behaviour. -/
def c4Batcher : Batcher Nat :=
  { records := [1, 2], max_batch_len := some 5 }

/-- Concrete instance over an empty record sequence. -/
def c5Batcher : Batcher Nat :=
  { records := [], max_batch_len := some 3 }

/-- Concrete instance with an oversized record under the `raises` policy. -/
def c6Batcher : Batcher Nat :=
  { records := [2, 5, 1], max_record_size := some 4, size_calc_fn := some natSize,
    when_record_size_exceeded := "raises" }

/-- Concrete instance whose `max_record_size` arose by defaulting from
`max_batch_size`. -/
def c7Batcher : Batcher Nat :=
  { records := [7, 1], max_record_size := some 5, max_batch_size := some 5,
    size_calc_fn := some natSize, when_record_size_exceeded := "skip" }

/-- Concrete instance for the dropped split-trigger record: `bytes` records,
the second one empty (falsy), `max_batch_len = 1`. -/
def c8Batcher : Batcher (List Nat) :=
  { records := [[1], []], max_batch_len := some 1 }

/-- Concrete instance with no limits configured. -/
def c10Batcher : Batcher Nat :=
  { records := [] }

/-- Unfolding of `size_calc_fn` application when the function is present. -/
theorem sizeApp_eq {α : Type} (b : Batcher α) (f : α → Nat)
    (hf : b.size_calc_fn = some f) (r : α) : b.sizeApp r = f r := by
  simp [Batcher.sizeApp, hf]

/-- The loop of `__next__` always hands back a state whose measure is at most
the number of records it was given to consume. -/
theorem runLoop_measure {α : Type} (b : Batcher α) :
    ∀ (rem batch : List α) (cur : Nat) (bt : List α) (t : BState α),
      b.runLoop rem batch cur = .batch bt t → t.measure ≤ rem.length := by
  intro rem
  induction rem with
  | nil =>
    intro batch cur bt t h
    simp only [Batcher.runLoop] at h
    obtain ⟨rfl, rfl⟩ := h
    simp [BState.measure]
  | cons r rest ih =>
    intro batch cur bt t h
    simp only [Batcher.runLoop] at h
    split at h
    · split at h
      · cases h
      · split at h
        · exact le_trans (ih batch cur bt t h) (Nat.le_succ _)
        · cases h
    · split at h
      · obtain ⟨rfl, rfl⟩ := h
        simp [BState.measure, List.length_cons]
      · split at h
        · obtain ⟨rfl, rfl⟩ := h
          simp [BState.measure, List.length_cons]
        · exact le_trans (ih _ _ bt t h) (Nat.le_succ _)

/-- A successful `__next__` step strictly decreases the measure, so the drain
driver below never runs out of fuel. -/
theorem next_measure {α : Type} (b : Batcher α) (pb : α → Bool) (s : BState α)
    (bt : List α) (t : BState α) (h : b.next pb s = .batch bt t) :
    t.measure < s.measure := by
  obtain ⟨ist, cur⟩ := s
  cases ist with
  | none => simp [Batcher.next] at h
  | some ci =>
    simp only [Batcher.next] at h
    have hm := runLoop_measure b ci.remaining _ _ bt t h
    have hs : BState.measure ⟨some ci, cur⟩ = ci.remaining.length + 1 := rfl
    omega

/-- Characterization of a successful `__init__`: the constructed fields,
the validity of the overflow policy, and the presence of `size_calc_fn`
whenever a truthy size limit was passed. -/
theorem init_ok_spec {α : Type} {records : List α} {mbl mrs mbs : Option Nat}
    {fn : Option (α → Nat)} {wrse : String} {b : Batcher α}
    (h : Batcher.init records mbl mrs mbs fn wrse = .ok b) :
    b = { records := records, max_batch_len := mbl,
          max_record_size := if pyTruthyNat mbs && !pyTruthyNat mrs then mbs else mrs,
          max_batch_size := mbs, size_calc_fn := fn,
          when_record_size_exceeded := wrse } ∧
    (wrse = "raises" ∨ wrse = "skip") ∧
    ((pyTruthyNat mrs || pyTruthyNat mbs) && fn.isNone) = false := by
  simp only [Batcher.init] at h
  split at h
  · cases h
  · rename_i h1
    split at h
    · cases h
    · rename_i h2
      injection h with h3
      subst h3
      refine ⟨rfl, ?_, ?_⟩
      · by_cases hr : wrse = "raises"
        · exact Or.inl hr
        · refine Or.inr ?_
          by_cases hs : wrse = "skip"
          · exact hs
          · exact absurd (by simp [Bool.and_eq_true, bne_iff_ne]; exact ⟨hr, hs⟩) h2
      · cases hb : (pyTruthyNat mrs || pyTruthyNat mbs) && fn.isNone with
        | false => rfl
        | true => exact absurd hb h1

/-- Positive limits are truthy. -/
theorem pyTruthyNat_some_pos {M : Nat} (h : 0 < M) : pyTruthyNat (some M) = true := by
  simp [pyTruthyNat]
  omega

/-- Evaluation of the record-size check under a truthy `max_record_size`. -/
theorem check_mrs_eq {α : Type} (b : Batcher α) (M : Nat)
    (hM : b.max_record_size = some M) (hM0 : 0 < M) (r : α) :
    b.check_max_record_size r = decide (M < b.sizeApp r) := by
  simp [Batcher.check_max_record_size, hM, pyTruthyNat_some_pos hM0]

/-- When `max_record_size = M` is truthy, the loop only appends records that
passed the record-size check, so all members of a produced batch are bounded
by `M` (provided the seeded part was), and the `prev` invariant carries over
to the successor state. -/
theorem runLoop_batch_small {α : Type} (b : Batcher α) (M : Nat)
    (hM : b.max_record_size = some M) (hM0 : 0 < M) :
    ∀ (rem batch : List α) (cur : Nat) (bt : List α) (t : BState α),
      (∀ x ∈ batch, b.sizeApp x ≤ M) →
      b.runLoop rem batch cur = .batch bt t →
      (∀ x ∈ bt, b.sizeApp x ≤ M) ∧ b.PrevOk M t := by
  intro rem
  induction rem with
  | nil =>
    intro batch cur bt t hb h
    simp only [Batcher.runLoop] at h
    obtain ⟨rfl, rfl⟩ := h
    refine ⟨hb, ?_⟩
    intro ci hci r hr
    cases hci
  | cons r rest ih =>
    intro batch cur bt t hb h
    simp only [Batcher.runLoop] at h
    split at h
    · split at h
      · cases h
      · split at h
        · exact ih batch cur bt t hb h
        · cases h
    · rename_i hcheck
      have hrM : b.sizeApp r ≤ M := by
        rw [check_mrs_eq b M hM hM0] at hcheck
        simp at hcheck
        omega
      split at h
      · obtain ⟨rfl, rfl⟩ := h
        refine ⟨hb, ?_⟩
        intro ci hci x hx
        cases hci
        cases hx
        exact hrM
      · split at h
        · obtain ⟨rfl, rfl⟩ := h
          refine ⟨hb, ?_⟩
          intro ci hci x hx
          cases hci
          cases hx
          exact hrM
        · refine ih _ _ bt t ?_ h
          intro x hx
          rcases List.mem_append.mp hx with hx | hx
          · exact hb x hx
          · rw [List.mem_singleton.mp hx]
            exact hrM

/-- Lifting of `runLoop_batch_small` through the seeding phase of
`__next__`: the seeded record comes from `prev`, so the `PrevOk` invariant
bounds it. -/
theorem next_batch_small {α : Type} (b : Batcher α) (pb : α → Bool) (M : Nat)
    (hM : b.max_record_size = some M) (hM0 : 0 < M) (s : BState α)
    (hs : b.PrevOk M s) (bt : List α) (t : BState α)
    (h : b.next pb s = .batch bt t) :
    (∀ x ∈ bt, b.sizeApp x ≤ M) ∧ b.PrevOk M t := by
  obtain ⟨ist, cur⟩ := s
  cases ist with
  | none => simp [Batcher.next] at h
  | some ci =>
    obtain ⟨rem, prev⟩ := ci
    simp only [Batcher.next] at h
    refine runLoop_batch_small b M hM hM0 rem _ _ bt t ?_ h
    cases prev with
    | none => intro x hx; simp at hx
    | some c =>
      by_cases hc : pb c = true
      · intro x hx
        simp [hc] at hx
        rw [hx]
        exact hs ⟨rem, some c⟩ rfl c rfl
      · intro x hx
        simp [hc] at hx

/-- The `prev` invariant holds in every reachable state. -/
theorem reachable_prevOk {α : Type} (b : Batcher α) (pb : α → Bool) (M : Nat)
    (hM : b.max_record_size = some M) (hM0 : 0 < M) (s : BState α)
    (h : b.Reachable pb s) : b.PrevOk M s := by
  induction h with
  | iterStart src cur =>
    intro ci hci r hr
    obtain rfl : (⟨src, none⟩ : CacheIterator α) = ci := by
      simpa [passState] using hci
    simp at hr
  | step hreach hstep ih =>
    exact (next_batch_small b pb M hM hM0 _ ih _ _ hstep).2

/-- Cumulative-size invariant of the loop: if the running counter equals the
total size of the batch so far and respects the bound, every batch the loop
returns respects the bound. -/
theorem runLoop_sum {α : Type} (b : Batcher α) (S : Nat)
    (hS : b.max_batch_size = some S) (hS0 : 0 < S) :
    ∀ (rem batch : List α) (cur : Nat) (bt : List α) (t : BState α),
      (batch.map b.sizeApp).sum = cur → cur ≤ S →
      b.runLoop rem batch cur = .batch bt t →
      (bt.map b.sizeApp).sum ≤ S := by
  intro rem
  induction rem with
  | nil =>
    intro batch cur bt t hsum hle h
    simp only [Batcher.runLoop] at h
    obtain ⟨rfl, rfl⟩ := h
    omega
  | cons r rest ih =>
    intro batch cur bt t hsum hle h
    simp only [Batcher.runLoop] at h
    split at h
    · split at h
      · cases h
      · split at h
        · exact ih batch cur bt t hsum hle h
        · cases h
    · split at h
      · obtain ⟨rfl, rfl⟩ := h
        omega
      · split at h
        · obtain ⟨rfl, rfl⟩ := h
          omega
        · rename_i cur2 heq
          have hT : pyTruthyNat b.max_batch_size = true := by
            rw [hS]
            exact pyTruthyNat_some_pos hS0
          unfold Batcher.check_new_batch_size at heq
          rw [if_pos hT, hS] at heq
          simp only [Option.getD_some] at heq
          split at heq
          · cases heq
          · rename_i hover
            injection heq with heq1 heq2
            refine ih (batch ++ [r]) cur2 bt t ?_ ?_ h
            · simp [hsum, heq2]
            · omega

/-- Lifting of the cumulative-size invariant through the seeding phase of
`__next__`. -/
theorem next_sum {α : Type} (b : Batcher α) (pb : α → Bool) (S M : Nat)
    (hS : b.max_batch_size = some S)
    (hM0 : 0 < M) (hMS : M ≤ S) (s : BState α) (hs : b.PrevOk M s)
    (bt : List α) (t : BState α) (h : b.next pb s = .batch bt t) :
    (bt.map b.sizeApp).sum ≤ S := by
  have hS0 : 0 < S := lt_of_lt_of_le hM0 hMS
  obtain ⟨ist, cur⟩ := s
  cases ist with
  | none => simp [Batcher.next] at h
  | some ci =>
    obtain ⟨rem, prev⟩ := ci
    have hT : pyTruthyNat b.max_batch_size = true := by
      rw [hS]
      exact pyTruthyNat_some_pos hS0
    cases prev with
    | none =>
      simp only [Batcher.next] at h
      rw [if_pos hT] at h
      exact runLoop_sum b S hS hS0 rem [] 0 bt t (by simp) (Nat.zero_le S) h
    | some c =>
      simp only [Batcher.next] at h
      rw [if_pos hT] at h
      by_cases hc : pb c = true
      · rw [if_pos hc, if_pos hc] at h
        have hcM : b.sizeApp c ≤ M := hs ⟨rem, some c⟩ rfl c rfl
        exact runLoop_sum b S hS hS0 rem [c] (b.sizeApp c) bt t (by simp)
          (le_trans hcM hMS) h
      · rw [if_neg hc, if_neg hc] at h
        exact runLoop_sum b S hS hS0 rem [] 0 bt t (by simp) (Nat.zero_le S) h

/-- Under the `skip` policy the loop never raises: it always returns a
batch. -/
theorem runLoop_skip_total {α : Type} (b : Batcher α)
    (hw : b.when_record_size_exceeded = "skip") :
    ∀ (rem batch : List α) (cur : Nat),
      ∃ bt t, b.runLoop rem batch cur = .batch bt t := by
  intro rem
  induction rem with
  | nil =>
    intro batch cur
    exact ⟨batch, ⟨none, 0⟩, by simp [Batcher.runLoop]⟩
  | cons r rest ih =>
    intro batch cur
    by_cases hcheck : b.check_max_record_size r = true
    · obtain ⟨bt, t, ht⟩ := ih batch cur
      exact ⟨bt, t, by simpa [Batcher.runLoop, hcheck, hw] using ht⟩
    · by_cases hlen : b.check_max_batch_len batch = true
      · exact ⟨batch, ⟨some ⟨rest, some r⟩, cur⟩, by simp [Batcher.runLoop, hcheck, hlen]⟩
      · cases hp : b.check_new_batch_size cur r with
        | mk flag cur2 =>
          cases flag
          · obtain ⟨bt, t, ht⟩ := ih (batch ++ [r]) cur2
            exact ⟨bt, t, by simpa [Batcher.runLoop, hcheck, hlen, hp] using ht⟩
          · exact ⟨batch, ⟨some ⟨rest, some r⟩, cur2⟩,
              by simp [Batcher.runLoop, hcheck, hlen, hp]⟩

/-- Under the `skip` policy, `__next__` on a live state always returns a
batch. -/
theorem next_skip_total {α : Type} (b : Batcher α) (pb : α → Bool)
    (hw : b.when_record_size_exceeded = "skip") (ci : CacheIterator α) (cur : Nat) :
    ∃ bt t, b.next pb ⟨some ci, cur⟩ = .batch bt t := by
  simp only [Batcher.next]
  exact runLoop_skip_total b hw ci.remaining _ _

/-- Under the `skip` policy with a truthy `max_record_size`, draining the
batcher with sufficient fuel terminates without error and no record in any
produced batch exceeds the record-size bound. -/
theorem drain_skip_ok {α : Type} (b : Batcher α) (pb : α → Bool) (M : Nat)
    (hM : b.max_record_size = some M) (hM0 : 0 < M)
    (hw : b.when_record_size_exceeded = "skip") :
    ∀ (fuel : Nat) (s : BState α), s.measure < fuel → b.PrevOk M s →
      ∃ bs, b.drain pb fuel s = some (.ok bs) ∧
        ∀ bt ∈ bs, ∀ x ∈ bt, b.sizeApp x ≤ M := by
  intro fuel
  induction fuel with
  | zero =>
    intro s hmeas hprev
    omega
  | succ fuel ih =>
    intro s hmeas hprev
    obtain ⟨ist, cur⟩ := s
    cases ist with
    | none =>
      refine ⟨[], ?_, ?_⟩
      · simp [Batcher.drain, Batcher.next]
      · intro bt hbt
        simp at hbt
    | some ci =>
      obtain ⟨bt, t, hnext⟩ := next_skip_total b pb hw ci cur
      have hmt : t.measure < fuel := by
        have hlt := next_measure b pb ⟨some ci, cur⟩ bt t hnext
        omega
      have hsmall := next_batch_small b pb M hM hM0 ⟨some ci, cur⟩ hprev bt t hnext
      obtain ⟨bs, hbs, hall⟩ := ih t hmt hsmall.2
      refine ⟨bt :: bs, ?_, ?_⟩
      · simp [Batcher.drain, hnext, hbs, Except.map]
      · intro bt2 hbt2
        rcases List.mem_cons.mp hbt2 with hbt2 | hbt2
        · rw [hbt2]
          exact hsmall.1
        · exact hall bt2 hbt2

/-- Under the `raises` policy, running the loop over a segment whose first
oversized record is `r0` either raises `RecordSizeExceeded r0` directly, or
splits earlier at some record that passed the check, leaving a strictly
shorter remainder whose first oversized record is still `r0`. -/
theorem runLoop_raises_first {α : Type} (b : Batcher α) (M : Nat)
    (hM : b.max_record_size = some M) (hM0 : 0 < M)
    (hw : b.when_record_size_exceeded = "raises") :
    ∀ (pre batch : List α) (cur : Nat) (r0 : α) (post : List α),
      (∀ x ∈ pre, b.sizeApp x ≤ M) → M < b.sizeApp r0 →
      b.runLoop (pre ++ r0 :: post) batch cur = .error (.recordSizeExceeded r0) ∨
      ∃ bt rest2 prev2 cur2,
        b.runLoop (pre ++ r0 :: post) batch cur =
          .batch bt ⟨some ⟨rest2, prev2⟩, cur2⟩ ∧
        (∃ pre2 post2, rest2 = pre2 ++ r0 :: post2 ∧
          (∀ x ∈ pre2, b.sizeApp x ≤ M)) ∧
        rest2.length < (pre ++ r0 :: post).length := by
  intro pre
  induction pre with
  | nil =>
    intro batch cur r0 post hpre hr0
    left
    have hcheck : b.check_max_record_size r0 = true := by
      rw [check_mrs_eq b M hM hM0]
      simpa using hr0
    simp [Batcher.runLoop, hcheck, hw]
  | cons x pre ih =>
    intro batch cur r0 post hpre hr0
    have hx : b.sizeApp x ≤ M := hpre x (by simp)
    have hcheck : b.check_max_record_size x = false := by
      rw [check_mrs_eq b M hM hM0]
      simpa using hx
    by_cases hlen : b.check_max_batch_len batch = true
    · right
      refine ⟨batch, pre ++ r0 :: post, some x, cur, ?_, ⟨pre, post, rfl, ?_⟩, ?_⟩
      · simp [Batcher.runLoop, hcheck, hlen]
      · intro y hy
        exact hpre y (by simp [hy])
      · simp only [List.cons_append, List.length_cons]
        omega
    · cases hp : b.check_new_batch_size cur x with
      | mk flag cur2 =>
        cases flag
        · rcases ih (batch ++ [x]) cur2 r0 post (fun y hy => hpre y (by simp [hy])) hr0
            with h | h
          · left
            simpa [Batcher.runLoop, hcheck, hlen, hp] using h
          · right
            obtain ⟨bt, rest2, prev2, c2, heq, hdec, hlt⟩ := h
            refine ⟨bt, rest2, prev2, c2,
              by simpa [Batcher.runLoop, hcheck, hlen, hp] using heq, hdec, ?_⟩
            simp only [List.cons_append, List.length_cons]
            omega
        · right
          refine ⟨batch, pre ++ r0 :: post, some x, cur2, ?_, ⟨pre, post, rfl, ?_⟩, ?_⟩
          · simp [Batcher.runLoop, hcheck, hlen, hp]
          · intro y hy
            exact hpre y (by simp [hy])
          · simp only [List.cons_append, List.length_cons]
            omega

/-- Lifting of `runLoop_raises_first` through the seeding phase of
`__next__`. -/
theorem next_raises_first {α : Type} (b : Batcher α) (pb : α → Bool) (M : Nat)
    (hM : b.max_record_size = some M) (hM0 : 0 < M)
    (hw : b.when_record_size_exceeded = "raises")
    (rem : List α) (prev : Option α) (cur : Nat)
    (pre : List α) (r0 : α) (post : List α)
    (hrem : rem = pre ++ r0 :: post) (hpre : ∀ x ∈ pre, b.sizeApp x ≤ M)
    (hr0 : M < b.sizeApp r0) :
    b.next pb ⟨some ⟨rem, prev⟩, cur⟩ = .error (.recordSizeExceeded r0) ∨
    ∃ bt rest2 prev2 cur2,
      b.next pb ⟨some ⟨rem, prev⟩, cur⟩ = .batch bt ⟨some ⟨rest2, prev2⟩, cur2⟩ ∧
      (∃ pre2 post2, rest2 = pre2 ++ r0 :: post2 ∧
        (∀ x ∈ pre2, b.sizeApp x ≤ M)) ∧
      rest2.length < rem.length := by
  subst hrem
  simp only [Batcher.next]
  exact runLoop_raises_first b M hM hM0 hw pre _ _ r0 post hpre hr0

/-- Under the `raises` policy, draining a live state whose remainder contains
an oversized record surfaces `RecordSizeExceeded` carrying the first such
record. -/
theorem drain_raises_error {α : Type} (b : Batcher α) (pb : α → Bool) (M : Nat)
    (hM : b.max_record_size = some M) (hM0 : 0 < M)
    (hw : b.when_record_size_exceeded = "raises") :
    ∀ (fuel : Nat) (rem : List α) (prev : Option α) (cur : Nat)
      (pre : List α) (r0 : α) (post : List α),
      rem = pre ++ r0 :: post → (∀ x ∈ pre, b.sizeApp x ≤ M) →
      M < b.sizeApp r0 → rem.length < fuel →
      b.drain pb fuel ⟨some ⟨rem, prev⟩, cur⟩ =
        some (.error (.recordSizeExceeded r0)) := by
  intro fuel
  induction fuel with
  | zero =>
    intro rem prev cur pre r0 post hrem hpre hr0 hlen
    omega
  | succ fuel ih =>
    intro rem prev cur pre r0 post hrem hpre hr0 hlen
    rcases next_raises_first b pb M hM hM0 hw rem prev cur pre r0 post hrem hpre hr0
      with h | h
    · simp [Batcher.drain, h]
    · obtain ⟨bt, rest2, prev2, cur2, hnext, ⟨pre2, post2, hrest, hpre2⟩, hlt⟩ := h
      have hrec := ih rest2 prev2 cur2 pre2 r0 post2 hrest hpre2 hr0 (by omega)
      simp [Batcher.drain, hnext, hrec, Except.map]

/-- With a validated overflow policy the loop can never raise
`NotImplementedError`. -/
theorem runLoop_no_notimpl {α : Type} (b : Batcher α)
    (hw : b.when_record_size_exceeded = "raises" ∨
      b.when_record_size_exceeded = "skip") :
    ∀ (rem batch : List α) (cur : Nat),
      b.runLoop rem batch cur ≠ .error .notImplementedError := by
  intro rem
  induction rem with
  | nil =>
    intro batch cur h
    simp [Batcher.runLoop] at h
  | cons r rest ih =>
    intro batch cur h
    simp only [Batcher.runLoop] at h
    split at h
    · rcases hw with hw | hw
      · simp [hw] at h
      · simp [hw] at h
        exact ih batch cur h
    · split at h
      · cases h
      · split at h
        · cases h
        · exact ih _ _ h

/-- Claim C1: concatenating all produced batches in order reproduces the
input minus only the records dropped under the Skip policy, with no loss.
The code violates this: a falsy record that triggers a split is dropped by
the carry-over seeding (`if cache := self._iter_state.prev:`) even under the
default `raises` policy.  This theorem evaluates the model at the failing
input: records `[2, 0]` with `max_batch_len = 1` are accepted, produce
`[[2], []]`, and the concatenation loses the record `0`. -/
theorem claim1_falsy_split_record_lost :
    Batcher.init [2, 0] (some 1) none none none "raises" = .ok c1Batcher ∧
    c1Batcher.batches natTruthy = some (.ok [[2], []]) ∧
    ([[2], []] : List (List Nat)).flatten ≠ [2, 0] :=
  ⟨rfl, rfl, by decide⟩

/-- Claim C2 counterexample: the claim asserts every batch produced under
`max_batch_size = S` sums to at most `S`, with oversized single records
impossible because the record-size check rejects them first.  With
`max_record_size = 10` explicitly larger than `max_batch_size = 5` the
accepted configuration produces the batch `[7]` whose total size exceeds
`5`. -/
theorem claim2_counterexample :
    Batcher.init [7] none (some 10) (some 5) (some natSize) "raises" = .ok c2Batcher ∧
    c2Batcher.batches natTruthy = some (.ok [[], [7]]) ∧
    ¬ ([7].map natSize).sum ≤ 5 :=
  ⟨rfl, rfl, by decide⟩

/-- Claim C2 amended: under `max_batch_size = S` with `size_of` defined and
the effective `max_record_size = M` truthy and at most `S` (as when
`max_record_size` is left unset and defaults to `S`), every batch produced by
a `__next__` step from any reachable state has total size at most `S`. -/
theorem claim2_amended_batch_size_bound {α : Type} (b : Batcher α)
    (pb : α → Bool) (S M : Nat) (f : α → Nat)
    (hS : b.max_batch_size = some S) (hf : b.size_calc_fn = some f)
    (hM : b.max_record_size = some M) (hM0 : 0 < M) (hMS : M ≤ S)
    (s : BState α) (bt : List α) (t : BState α)
    (hreach : b.Reachable pb s) (hstep : b.next pb s = .batch bt t) :
    (bt.map f).sum ≤ S := by
  have hprev := reachable_prevOk b pb M hM hM0 s hreach
  have hsum := next_sum b pb S M hS hM0 hMS s hprev bt t hstep
  have hfa : b.sizeApp = f := funext (fun r => sizeApp_eq b f hf r)
  rwa [hfa] at hsum

/-- Claim C2 amended, witness: the bound instantiated at a concrete
configuration and a concrete reachable step. -/
theorem claim2_amended_witness : ([3].map natSize).sum ≤ 5 :=
  claim2_amended_batch_size_bound c2wBatcher natTruthy 5 5 natSize rfl rfl rfl
    (by decide) (by decide) (passState [3, 4] 0) [3]
    ⟨some ⟨[], some 4⟩, 3⟩ (Batcher.Reachable.iterStart [3, 4] 0) rfl

/-- Claim C3 counterexample: the claim asserts that setting `max_record_size`
to any non-negative integer including zero without `size_of` makes
construction fail; in the code `0` is falsy, so this construction
succeeds. -/
theorem claim3_counterexample :
    exceptIsOk (Batcher.init ([] : List Nat) none (some 0) none none "raises") = true :=
  rfl

/-- Claim C3 amended: construction fails exactly when a truthy (nonzero)
`max_record_size` or `max_batch_size` is passed without `size_calc_fn`, or
the overflow policy is neither `raises` nor `skip`; limits passed as `None`
or `0` count as unset. -/
theorem claim3_amended_init_failure_iff {α : Type} (records : List α)
    (mbl mrs mbs : Option Nat) (fn : Option (α → Nat)) (wrse : String) :
    exceptIsOk (Batcher.init records mbl mrs mbs fn wrse) = false ↔
      ((pyTruthyNat mrs || pyTruthyNat mbs) = true ∧ fn = none) ∨
      (wrse ≠ "raises" ∧ wrse ≠ "skip") := by
  simp only [Batcher.init]
  split
  · rename_i h1
    rw [Bool.and_eq_true, Option.isNone_iff_eq_none] at h1
    simp only [exceptIsOk]
    exact ⟨fun _ => Or.inl h1, fun _ => trivial⟩
  · rename_i h1
    split
    · rename_i h2
      rw [Bool.and_eq_true, bne_iff_ne, bne_iff_ne] at h2
      simp only [exceptIsOk]
      exact ⟨fun _ => Or.inr h2, fun _ => trivial⟩
    · rename_i h2
      simp only [exceptIsOk]
      constructor
      · intro hfalse
        cases hfalse
      · intro hor
        exfalso
        rcases hor with ⟨ho, hfn⟩ | ⟨hr, hs⟩
        · exact h1 (by rw [Bool.and_eq_true, Option.isNone_iff_eq_none]; exact ⟨ho, hfn⟩)
        · exact h2 (by rw [Bool.and_eq_true, bne_iff_ne, bne_iff_ne]; exact ⟨hr, hs⟩)

/-- Claim C4 counterexample: the claim asserts a fresh pass after a drained
pass over a one-shot source yields no batches at all.  In the code the first
pass over `[1, 2]` consumes the whole source, and a fresh pass (which
re-wraps the now-empty source) yields one empty batch, not nothing. -/
theorem claim4_counterexample :
    c4Batcher.batches natTruthy = some (.ok [[1, 2]]) ∧
    c4Batcher.drain natTruthy 2 (passState ([] : List Nat) 0) = some (.ok [[]]) ∧
    ([[]] : List (List Nat)) ≠ [] :=
  ⟨rfl, rfl, by decide⟩

/-- Claim C4 amended: after a complete pass over a one-shot source, a fresh
pass re-wraps the exhausted source and yields exactly one batch, which is
empty, after which iteration signals `StopIteration`. -/
theorem claim4_amended_second_pass_one_empty_batch {α : Type} (b : Batcher α)
    (pb : α → Bool) (cur : Nat) :
    b.next pb (passState ([] : List α) cur) = .batch [] ⟨none, 0⟩ ∧
    b.next pb (⟨none, 0⟩ : BState α) = .stopIteration :=
  ⟨rfl, rfl⟩

/-- Claim C5: for the empty input sequence, under any configuration, the
first `__next__` call returns exactly one empty batch and every subsequent
call raises `StopIteration` (the terminally exhausted state is a fixed
point). -/
theorem claim5_empty_input_single_empty_batch {α : Type} (b : Batcher α)
    (pb : α → Bool) (h : b.records = []) :
    b.batches pb = some (.ok [[]]) ∧
    b.next pb (⟨none, 0⟩ : BState α) = .stopIteration := by
  refine ⟨?_, rfl⟩
  unfold Batcher.batches
  rw [h]
  rfl

/-- Claim C5 witness: the empty-input behaviour at a concrete
configuration. -/
theorem claim5_witness :
    c5Batcher.batches natTruthy = some (.ok [[]]) ∧
    c5Batcher.next natTruthy (⟨none, 0⟩ : BState Nat) = .stopIteration :=
  claim5_empty_input_single_empty_batch c5Batcher natTruthy rfl

/-- Claim C6: with a truthy `max_record_size = M` and `size_of` defined,
under the `raises` policy an input containing an oversized record makes
draining fail with `RecordSizeExceeded` carrying the first oversized record
(the failure happens exactly when that record is reached, records before it
all passing the check); under the `skip` policy draining never raises and no
oversized record appears in any produced batch. -/
theorem claim6_oversized_record_policy {α : Type} (b : Batcher α)
    (pb : α → Bool) (M : Nat) (f : α → Nat)
    (hM : b.max_record_size = some M) (hM0 : 0 < M)
    (hf : b.size_calc_fn = some f) :
    (b.when_record_size_exceeded = "raises" →
      ∀ (pre : List α) (r0 : α) (post : List α),
        b.records = pre ++ r0 :: post → (∀ x ∈ pre, f x ≤ M) → M < f r0 →
        b.batches pb = some (.error (.recordSizeExceeded r0))) ∧
    (b.when_record_size_exceeded = "skip" →
      ∃ bs, b.batches pb = some (.ok bs) ∧ ∀ bt ∈ bs, ∀ x ∈ bt, f x ≤ M) := by
  have hfa : b.sizeApp = f := funext (fun r => sizeApp_eq b f hf r)
  constructor
  · intro hw pre r0 post hrec hpre hr0
    unfold Batcher.batches
    exact drain_raises_error b pb M hM hM0 hw (b.records.length + 2) b.records
      none 0 pre r0 post hrec (by rw [hfa]; exact hpre) (by rw [hfa]; exact hr0)
      (by omega)
  · intro hw
    obtain ⟨bs, hbs, hall⟩ := drain_skip_ok b pb M hM hM0 hw
      (b.records.length + 2) (passState b.records 0)
      (by simp only [passState, BState.measure]; omega)
      (by
        intro ci hci r hr
        obtain rfl : (⟨b.records, none⟩ : CacheIterator α) = ci := by
          simpa [passState] using hci
        simp at hr)
    refine ⟨bs, hbs, ?_⟩
    intro bt hbt x hx
    have hxx := hall bt hbt x hx
    rwa [hfa] at hxx

/-- Claim C6 witness: the `raises` conjunct instantiated at a concrete
configuration with first oversized record `5`. -/
theorem claim6_witness :
    c6Batcher.batches natTruthy = some (.error (.recordSizeExceeded 5)) :=
  (claim6_oversized_record_policy c6Batcher natTruthy 4 natSize rfl (by decide)
    rfl).1 rfl [2] 5 [1] rfl (by decide) (by decide)

/-- Claim C7: constructing with `max_batch_size = S` truthy and
`max_record_size` unset makes the effective `max_record_size` equal `S`, so
any record whose size exceeds `S` fails the record-size check and (under
either policy) never appears in any produced batch, alone or otherwise. -/
theorem claim7_record_size_defaults_to_batch_size {α : Type}
    (records : List α) (mbl : Option Nat) (S : Nat) (f : α → Nat)
    (wrse : String) (b : Batcher α) (pb : α → Bool)
    (h : Batcher.init records mbl none (some S) (some f) wrse = .ok b)
    (hS : 0 < S) :
    b.max_record_size = some S ∧
    (∀ r, S < f r → b.check_max_record_size r = true) ∧
    (∀ (s : BState α) (bt : List α) (t : BState α),
      b.Reachable pb s → b.next pb s = .batch bt t → ∀ x ∈ bt, f x ≤ S) := by
  obtain ⟨hb, hwr, hfn⟩ := init_ok_spec h
  have hmrs : b.max_record_size = some S := by
    have hT : (pyTruthyNat (some S) && !pyTruthyNat none) = true := by
      simp only [pyTruthyNat, Bool.not_false, Bool.and_true, bne_iff_ne]
      omega
    rw [hb]
    simp [hT]
  have hfb : b.size_calc_fn = some f := by rw [hb]
  have hfa : b.sizeApp = f := funext (fun r => sizeApp_eq b f hfb r)
  refine ⟨hmrs, ?_, ?_⟩
  · intro r hr
    rw [check_mrs_eq b S hmrs hS]
    simp only [hfa]
    simpa using hr
  · intro s bt t hreach hstep
    have hprev := reachable_prevOk b pb S hmrs hS s hreach
    have hmem := (next_batch_small b pb S hmrs hS s hprev bt t hstep).1
    intro x hx
    have hxx := hmem x hx
    rwa [hfa] at hxx

/-- Claim C7 witness: the defaulting and the oversized-record exclusion at a
concrete configuration. -/
theorem claim7_witness :
    c7Batcher.max_record_size = some 5 ∧
    (∀ r, 5 < natSize r → c7Batcher.check_max_record_size r = true) ∧
    (∀ (s : BState Nat) (bt : List Nat) (t : BState Nat),
      c7Batcher.Reachable natTruthy s →
      c7Batcher.next natTruthy s = .batch bt t → ∀ x ∈ bt, natSize x ≤ 5) :=
  claim7_record_size_defaults_to_batch_size [7, 1] none 5 natSize "skip"
    c7Batcher natTruthy rfl (by decide)

/-- Claim C8: every batch under `max_batch_len = L` has at most `L` records,
with a split-triggering record carried to the next batch, not dropped.  The
code violates the carry part: a falsy record (here the empty `bytes` record)
that triggers the length split is dropped by the carry-over seeding.  This
theorem evaluates the model at the failing input: `[[1], []]` with
`max_batch_len = 1` is accepted and produces `[[[1]], []]` instead of the
claimed `[[[1]], [[]]]`. -/
theorem claim8_split_record_dropped :
    Batcher.init [[1], []] (some 1) none none none "raises" = .ok c8Batcher ∧
    c8Batcher.batches bytesTruthy = some (.ok [[[1]], []]) ∧
    ([[[1]], []] : List (List (List Nat))) ≠ [[[1]], [[]]] :=
  ⟨rfl, rfl, by decide⟩

/-- Claim C9: a successful pull of the lookahead source yields the next
record and stores that same record as `previous`; on exhaustion the pull
signals `EndOfSequence` while the iterator (including `previous`) is left
unchanged, so every subsequent pull signals `EndOfSequence` as well. -/
theorem claim9_cache_iterator_contract {α : Type} (p : Option α) (x : α)
    (xs : List α) :
    CacheIterator.next (⟨x :: xs, p⟩ : CacheIterator α) = some (x, ⟨xs, some x⟩) ∧
    CacheIterator.next (⟨[], p⟩ : CacheIterator α) = none :=
  ⟨rfl, rfl⟩

/-- Claim C10: for every successfully constructed `Batcher` the
`NotImplementedError` branch of `__next__` is unreachable, because the
constructor admits only the two validated overflow-policy values. -/
theorem claim10_no_not_implemented {α : Type} (records : List α)
    (mbl mrs mbs : Option Nat) (fn : Option (α → Nat)) (wrse : String)
    (b : Batcher α) (pb : α → Bool) (s : BState α)
    (h : Batcher.init records mbl mrs mbs fn wrse = .ok b) :
    b.next pb s ≠ .error .notImplementedError := by
  obtain ⟨hb, hwr, hfn⟩ := init_ok_spec h
  subst hb
  intro hcon
  obtain ⟨ist, cur⟩ := s
  cases ist with
  | none => simp [Batcher.next] at hcon
  | some ci =>
    simp only [Batcher.next] at hcon
    exact runLoop_no_notimpl _ hwr ci.remaining _ _ hcon

/-- Claim C10 witness: a concrete constructed batcher never raises
`NotImplementedError` from a concrete state. -/
theorem claim10_witness :
    Batcher.init ([] : List Nat) none none none none "raises" = .ok c10Batcher ∧
    c10Batcher.next natTruthy (passState [] 0) ≠ .error .notImplementedError :=
  ⟨rfl, claim10_no_not_implemented [] none none none none "raises" c10Batcher
    natTruthy (passState [] 0) rfl⟩

end BadgerBatcher
